import Mathlib

/-!
Verification development for the VM runner storage subsystem
(`core/lib/zksync_core/src/vm_runner/storage.rs`): a dual-backend versioned
storage cache with a background synchronization task (`StorageSyncTask::run`)
and a concurrent read facade (`VmRunnerStorage::load_batch` /
`VmRunnerStorage::access_storage_inner`).

Modelling conventions:
- `L1BatchNumber` (a `u32` newtype) is modelled as `Nat`; none of the verified
  properties depends on 32-bit wraparound, and batch numbers in all reachable
  states stay far below `2^32` relative to the inputs considered.
- Hash-like opaque values (`H256`, storage keys, bytecode) are modelled as
  `Nat` / `List Nat`.
- The `BTreeMap<L1BatchNumber, StorageData>` is modelled as an association
  list with strictly ascending keys; `btreeInsert` mirrors ordered insertion,
  `List.filter` mirrors `retain`, and `getLast?` mirrors `last_entry`.
- Database accessors (`BlocksDal`, `StorageLogsDal`, `L1BatchParamsProvider`)
  are modelled as total functions packaged in a `Db` record: the code treats
  them as read-only queries and propagates their errors verbatim, so the
  error dimension is orthogonal to the verified properties.
-/

namespace VmRunner

/-- Execution environment parameters of one L1 batch (`L1BatchEnv`): the batch
number plus the remaining parameters, which the verified code never inspects
and which are therefore bundled into one opaque `params` field. -/
structure L1BatchEnv where
  number : Nat
  params : Nat
  deriving Repr, DecidableEq

/-- System-level execution parameters (`SystemEnv`); opaque to the verified
code, bundled into one field. -/
structure SystemEnv where
  params : Nat
  deriving Repr, DecidableEq

/-- One miniblock together with the ordered transactions executed in it
(`MiniblockExecutionData`). -/
structure MiniblockExecutionData where
  number : Nat
  txs : List Nat
  deriving Repr, DecidableEq

/-- Data needed to re-execute an L1 batch (`BatchData`). -/
structure BatchData where
  l1_batch_env : L1BatchEnv
  system_env : SystemEnv
  miniblocks : List MiniblockExecutionData
  deriving Repr, DecidableEq

/-- A storage slot value together with its optional enumeration index
(`zksync_state::StateValue`). -/
structure StateValue where
  value : Nat
  enum_index : Option Nat
  deriving Repr, DecidableEq

/-- Materialized record for one in-window batch (`StorageData`): the batch
data plus the storage diffs and new factory dependencies of the batch. The
`HashMap`s are modelled as association lists. -/
structure StorageData where
  batch_data : BatchData
  storage_diffs : List (Nat × StateValue)
  factory_deps : List (Nat × List Nat)
  deriving Repr, DecidableEq

/-- The shared state guarded by the `RwLock` (`State`): the durable watermark
`l1_batch_number` and the look-ahead window `storage`, a `BTreeMap` modelled
as an association list with strictly ascending keys. -/
structure State where
  l1_batch_number : Nat
  storage : List (Nat × StorageData)
  deriving Repr, DecidableEq

/-- Initial shared state installed by `VmRunnerStorage::new`: watermark `0`
and an empty window. -/
def State.initial : State :=
  { l1_batch_number := 0, storage := [] }

/-- Keys of the window map, in map (ascending) order. -/
def keysOf (l : List (Nat × StorageData)) : List Nat :=
  l.map (fun p => p.1)

/-- Ordered insertion into the association-list model of `BTreeMap::insert`:
the new pair is placed before the first strictly larger key, replacing an
equal key if present. -/
def btreeInsert (k : Nat) (v : StorageData) : List (Nat × StorageData) → List (Nat × StorageData)
  | [] => [(k, v)]
  | (k0, v0) :: rest =>
    if k < k0 then (k, v) :: (k0, v0) :: rest
    else if k = k0 then (k, v) :: rest
    else (k0, v0) :: btreeInsert k v rest

/-- Read-only accessors of the durable relational store used by the verified
code, packaged as total functions. `first_miniblock_in_batch` models
`L1BatchParamsProvider::load_first_miniblock_in_batch` (`none` when the batch
is not sealed yet); `load_l1_batch_params` takes the first miniblock and the
validation gas limit; `initial_write_info` maps a hashed key to the batch and
enumeration index of its first-ever write. -/
structure Db where
  first_miniblock_in_batch : Nat → Option Nat
  load_l1_batch_params : Nat → Nat → SystemEnv × L1BatchEnv
  get_miniblocks_to_execute : Nat → List MiniblockExecutionData
  get_touched_slots : Nat → List (Nat × Nat)
  initial_write_info : Nat → Nat × Nat
  get_factory_deps : Nat → List (Nat × List Nat)
  hashed_key : Nat → Nat

/-- Validation gas limit passed by `load_batch_data`: `u32::MAX`, irrelevant
during re-execution. -/
def u32Max : Nat := 4294967295

/-- Embedding of `StorageSyncTask::load_batch_data`: look up the first
miniblock of the batch (returning `none` when absent), load the batch
parameters through it, and load the ordered miniblocks with transactions. -/
def load_batch_data (db : Db) (n : Nat) : Option BatchData :=
  match db.first_miniblock_in_batch n with
  | none => none
  | some first_miniblock =>
    let envs := db.load_l1_batch_params first_miniblock u32Max
    some { l1_batch_env := envs.2
         , system_env := envs.1
         , miniblocks := db.get_miniblocks_to_execute n }

/-- Embedding of the window-filling loop body of `StorageSyncTask::run` for
one batch: `load_batch_data` plus the diff set (touched slots with resolved
first-write enumeration indices) and the new factory dependencies. Returns
`none` exactly when `load_batch_data` does. -/
def fullAssemble (db : Db) (n : Nat) : Option StorageData :=
  match load_batch_data db n with
  | none => none
  | some batch_data =>
    some { batch_data := batch_data
         , storage_diffs :=
             (db.get_touched_slots n).map (fun p =>
               (p.1, { value := p.2
                     , enum_index := some (db.initial_write_info (db.hashed_key p.1)).2 }))
         , factory_deps := db.get_factory_deps n }

/-- An abstract batch assembler (what one synchronizer iteration sees of the
durable store) is well-numbered when every batch data it returns carries the
requested batch number in its environment. -/
def WellNumbered (asm : Nat → Option StorageData) : Prop :=
  ∀ n sd, asm n = some sd → sd.batch_data.l1_batch_env.number = n

/-- A durable store is well-numbered when `load_batch_data` is. -/
def WellNumberedDb (db : Db) : Prop :=
  ∀ n bd, load_batch_data db n = some bd → bd.l1_batch_env.number = n

/-- The `retain` call of `StorageSyncTask::run`: keep exactly the window
entries with batch number strictly above `latest`. -/
def pruneLe (latest : Nat) (storage : List (Nat × StorageData)) : List (Nat × StorageData) :=
  storage.filter (fun p => latest < p.1)

/-- The forward-fill loop of `StorageSyncTask::run`: iterate the counter from
`start` for `fuel` steps (`fuel` encodes the inclusive range bound), stop at
the first batch the assembler reports absent, and insert each loaded record
under the batch number recorded in its own environment. -/
def fillWindow (asm : Nat → Option StorageData) :
    Nat → Nat → List (Nat × StorageData) → List (Nat × StorageData)
  | 0, _, storage => storage
  | fuel + 1, n, storage =>
    match asm n with
    | none => storage
    | some sd => fillWindow asm fuel (n + 1) (btreeInsert sd.batch_data.l1_batch_env.number sd storage)

/-- The committing part of one `StorageSyncTask::run` iteration, after a
successful cache catch-up to `latest`: bump the watermark, prune the window,
and forward-fill from the highest present key (or the watermark when the
window is empty) up to `latest + maxW`. -/
def syncStep (asm : Nat → Option StorageData) (maxW latest : Nat) (st : State) : State :=
  let storage := pruneLe latest st.storage
  let maxPresent := ((keysOf storage).getLast?).getD latest
  { l1_batch_number := latest
  , storage := fillWindow asm (latest + maxW - maxPresent) (maxPresent + 1) storage }

/-- Outcome of one synchronizer loop iteration: the task either returned
cleanly (`ok`, the `Ok(())` paths), or proceeds to the next iteration
(`continued`). The embedding keeps the store total, so the hard-error
(`Err`) paths of the code cannot arise here. -/
inductive IterResult where
  | ok : IterResult
  | continued : IterResult
  deriving Repr, DecidableEq

/-- One full iteration of the `StorageSyncTask::run` loop: observe the stop
flag, run the cache catch-up (its success recorded in `catchupOk`), and only
then commit the step. Returns the task-level outcome together with the shared
state left behind. -/
def syncIteration (asm : Nat → Option StorageData) (maxW latest : Nat)
    (stopFlag catchupOk : Bool) (st : State) : IterResult × State :=
  if stopFlag then (.ok, st)
  else if catchupOk then (.continued, syncStep asm maxW latest st)
  else (.ok, st)

/-- Inputs consumed by one synchronizer iteration: the progress-source value,
whether the cache catch-up completed, and the assembler view of the durable
store during that iteration. -/
structure IterInput where
  latest : Nat
  catchupOk : Bool
  asm : Nat → Option StorageData

/-- A run of the synchronizer loop over a list of per-iteration inputs,
stopping at the first interrupted iteration (the task returns and performs no
further iterations). -/
def runSync (maxW : Nat) : List IterInput → State → State
  | [], st => st
  | inp :: rest, st =>
    if inp.catchupOk then runSync maxW rest (syncStep inp.asm maxW inp.latest st)
    else st

/-- States reachable from the initial state by synchronizer iterations with
arbitrary (even ill-numbered) assemblers and arbitrary progress values. -/
inductive ReachableAny (maxW : Nat) : State → Prop
  | init : ReachableAny maxW State.initial
  | step (asm : Nat → Option StorageData) (latest : Nat) (st : State) :
      ReachableAny maxW st → ReachableAny maxW (syncStep asm maxW latest st)

/-- States reachable from the initial state by synchronizer iterations under
the documented environment contract: every assembler view is well-numbered
and the progress source is monotone (each reported value is at least the
current watermark, which each completed iteration sets to the last reported
value). -/
inductive Reachable (maxW : Nat) : State → Prop
  | init : Reachable maxW State.initial
  | step (asm : Nat → Option StorageData) (latest : Nat) (st : State) :
      Reachable maxW st → WellNumbered asm → st.l1_batch_number ≤ latest →
      Reachable maxW (syncStep asm maxW latest st)

/-- States reachable by synchronizer iterations against one fixed durable
store `db`, with arbitrary progress values. -/
inductive ReachableDb (db : Db) (maxW : Nat) : State → Prop
  | init : ReachableDb db maxW State.initial
  | step (latest : Nat) (st : State) :
      ReachableDb db maxW st → ReachableDb db maxW (syncStep (fullAssemble db) maxW latest st)

/-- Window entries loaded from a fixed well-numbered store remain faithful to
it: the stored batch data is exactly what `load_batch_data` returns for the
key the entry is stored under. -/
def WindowFaithful (db : Db) (st : State) : Prop :=
  ∀ p ∈ st.storage, load_batch_data db p.1 = some p.2.batch_data

/-- The world visible to a facade operation: the lock-guarded shared `State`
plus the version up to which the shared RocksDB cache has been synchronized
(post-bootstrap, so the cache cell is initialized). -/
structure World where
  state : State
  cacheVersion : Nat
  deriving Repr, DecidableEq

/-- Modelled from the spec: the cache catch-up collaborator
(`RocksdbStorageBuilder::synchronize`, from the external `zksync_state`
crate, not part of the excerpted sources) brings the cache forward to the
target version and is safe to call repeatedly with non-decreasing targets;
advancing to a target at or below the current version changes nothing. -/
def cacheSynchronize (target : Nat) (w : World) : World :=
  { w with cacheVersion := max w.cacheVersion target }

/-- A consistent state view as of some batch (the
`PgOrRocksdbStorage::RocksdbWithMemory` value built by
`access_storage_inner`): a cache snapshot pinned at the watermark plus the
diff and factory-dependency overlays of the selected window entries, in
ascending batch order. -/
structure OverlayView where
  pinned_at : Nat
  storage_diffs : List (List (Nat × StateValue))
  factory_deps : List (List (Nat × List Nat))
  deriving Repr, DecidableEq

/-- Result of one poll iteration of `access_storage_inner` (post-bootstrap):
a hard out-of-range failure (`anyhow::bail!`), a retry after the 100ms sleep,
a clean `Ok(None)` after an interrupted cache synchronization, or the
assembled view. -/
inductive AccessStep where
  | fail : AccessStep
  | retry : AccessStep
  | interrupted : AccessStep
  | ok : OverlayView → AccessStep
  deriving Repr, DecidableEq

/-- Embedding of one poll iteration of `VmRunnerStorage::access_storage_inner`
after bootstrap, acting on the world. `sealed` is the sealed-batch counter the
durable store reports during this iteration and `syncOk` records whether the
in-call cache synchronization completes without interruption. -/
def accessStorageInner (maxW sealed : Nat) (syncOk : Bool) (n : Nat) (w : World) :
    AccessStep × World :=
  let st := w.state
  let maxL1 := min (st.l1_batch_number + maxW) sealed
  if n < st.l1_batch_number ∨ maxL1 < n then (.fail, w)
  else if n ≠ st.l1_batch_number ∧ List.lookup n st.storage = none then (.retry, w)
  else
    let w1 := cacheSynchronize st.l1_batch_number w
    if syncOk then
      (.ok { pinned_at := st.l1_batch_number
           , storage_diffs := (st.storage.filter (fun p => p.1 ≤ n)).map
               (fun p => p.2.storage_diffs)
           , factory_deps := (st.storage.filter (fun p => p.1 ≤ n)).map
               (fun p => p.2.factory_deps) }, w1)
    else (.interrupted, w1)

/-- Result of one poll iteration of `load_batch` (post-bootstrap): a final
answer (`Ok(value)`) or a retry after the 100ms sleep. -/
inductive LoadBatchStep where
  | ret : Option BatchData → LoadBatchStep
  | retry : LoadBatchStep
  deriving Repr, DecidableEq

/-- Embedding of one poll iteration of the post-bootstrap (cached) path of
`VmRunnerStorage::load_batch`: out-of-range requests answer `none`
immediately, an in-range entry not yet in the window causes a retry, and a
present entry is returned as a copy of the stored batch data. -/
def loadBatchPoll (maxW sealed : Nat) (st : State) (n : Nat) : LoadBatchStep :=
  let maxL1 := min (st.l1_batch_number + maxW) sealed
  if n ≤ st.l1_batch_number ∨ maxL1 < n then .ret none
  else
    match List.lookup n st.storage with
    | some sd => .ret (some sd.batch_data)
    | none => .retry

/-- Embedding of the post-bootstrap `load_batch` as a whole, polling against
a possibly changing environment: iteration `i` observes the shared state and
sealed counter `env i`. Returns `some answer` at the first non-retry poll and
`none` when `fuel` poll iterations all retried. -/
def loadBatchLoop (maxW : Nat) (env : Nat → State × Nat) (n : Nat) :
    Nat → Nat → Option (Option BatchData)
  | 0, _ => none
  | fuel + 1, i =>
    match loadBatchPoll maxW (env i).2 (env i).1 n with
    | .ret r => some r
    | .retry => loadBatchLoop maxW env n fuel (i + 1)

/-- The post-bootstrap `load_batch` poll viewed as a world operation: it only
reads the shared state, so the world component records that the body contains
no write to any shared resource. -/
def loadBatchInner (maxW sealed : Nat) (n : Nat) (w : World) : LoadBatchStep × World :=
  (loadBatchPoll maxW sealed w.state n, w)

/-- The pre-bootstrap (direct) path of `VmRunnerStorage::load_batch`: a fresh
`load_batch_data` call on every invocation. -/
def loadBatchDirect (db : Db) (n : Nat) : Option BatchData :=
  load_batch_data db n

/-- Modelled from the spec: value resolution against the layered diff
overlays of a `RocksdbWithMemory` view (implemented in the external
`zksync_state` crate). Overlays are given in ascending batch order; a later
overlay shadows earlier ones for the same key, and a key written in no
overlay falls through (resolution answers `none`). -/
def overlayResolve : List (List (Nat × StateValue)) → Nat → Option StateValue
  | [], _ => none
  | d :: rest, key =>
    match overlayResolve rest key with
    | some v => some v
    | none => List.lookup key d

/-- Modelled from the spec: reading a key through a view resolves it against
the overlays first and falls back to the pinned cache snapshot `base`. -/
def viewValue (base : Nat → StateValue) (v : OverlayView) (key : Nat) : StateValue :=
  (overlayResolve v.storage_diffs key).getD (base key)

/-- A list of per-iteration progress-source values is monotone from `w` when
the first value is at least `w` and each later value is at least its
predecessor (the documented contract of `latest_processed_batch`). -/
def MonotoneFrom (w : Nat) : List IterInput → Prop
  | [] => True
  | inp :: rest => w ≤ inp.latest ∧ MonotoneFrom inp.latest rest

/-! Concrete fixtures used to instantiate the verified statements. -/

/-- A concrete window entry for batch `n`, used by concrete instantiations. -/
def mkSD (n : Nat) : StorageData :=
  { batch_data := { l1_batch_env := { number := n, params := n + 50 }
                  , system_env := { params := 3 }
                  , miniblocks := [{ number := 1000 + n, txs := [n] }] }
  , storage_diffs := [(7, { value := n, enum_index := some 1 })]
  , factory_deps := [] }

/-- A concrete well-numbered assembler with batches up to 13 sealed. -/
def asmA (n : Nat) : Option StorageData :=
  if n ≤ 13 then some (mkSD n) else none

/-- The state after one synchronizer iteration against `asmA` with progress
value 10 and window limit 5: watermark 10, window keys 11, 12, 13. -/
def stA : State := syncStep asmA 5 10 State.initial

/-- A concrete iteration-input list with monotone progress values. -/
def inputsA : List IterInput :=
  [{ latest := 10, catchupOk := true, asm := asmA },
   { latest := 12, catchupOk := true, asm := asmA }]

/-- A concrete well-numbered durable store with batches up to 13 sealed. -/
def dbA : Db :=
  { first_miniblock_in_batch := fun n => if n ≤ 13 then some n else none
  , load_l1_batch_params := fun blk _gas =>
      ({ params := blk + 1 }, { number := blk, params := blk + 2 })
  , get_miniblocks_to_execute := fun n => [{ number := 1000 + n, txs := [n, n + 1] }]
  , get_touched_slots := fun n => [(7, n)]
  , initial_write_info := fun k => (1, k + 1)
  , get_factory_deps := fun _ => []
  , hashed_key := fun k => k }

/-- The state after one synchronizer iteration against `dbA` with progress
value 10 and window limit 5. -/
def stD : State := syncStep (fullAssemble dbA) 5 10 State.initial

/-- The batch data `dbA` yields for batch 12. -/
def bdD : BatchData :=
  { l1_batch_env := { number := 12, params := 14 }
  , system_env := { params := 13 }
  , miniblocks := [{ number := 1012, txs := [12, 13] }] }

/-- A window entry for batch 11 writing key 7 with value 100. -/
def sdP : StorageData :=
  { batch_data := { l1_batch_env := { number := 11, params := 0 }
                  , system_env := { params := 0 }, miniblocks := [] }
  , storage_diffs := [(7, { value := 100, enum_index := some 1 })]
  , factory_deps := [] }

/-- A window entry for batch 12 writing only key 8. -/
def sdQ : StorageData :=
  { batch_data := { l1_batch_env := { number := 12, params := 0 }
                  , system_env := { params := 0 }, miniblocks := [] }
  , storage_diffs := [(8, { value := 5, enum_index := some 2 })]
  , factory_deps := [] }

/-- A window entry for batch 13 writing key 7 with value 200. -/
def sdR : StorageData :=
  { batch_data := { l1_batch_env := { number := 13, params := 0 }
                  , system_env := { params := 0 }, miniblocks := [] }
  , storage_diffs := [(7, { value := 200, enum_index := some 1 })]
  , factory_deps := [] }

/-- A concrete shared state: watermark 10, window entries 11, 12, 13 of which
11 and 13 write key 7. -/
def stC : State := { l1_batch_number := 10, storage := [(11, sdP), (12, sdQ), (13, sdR)] }

/-- A concrete world around `stC` with the cache synchronized to the
watermark. -/
def wC : World := { state := stC, cacheVersion := 10 }

/-- The view `access_storage_inner` assembles for batch 13 against `wC`. -/
def viewC : OverlayView :=
  { pinned_at := 10
  , storage_diffs := [sdP.storage_diffs, sdQ.storage_diffs, sdR.storage_diffs]
  , factory_deps := [[], [], []] }

/-- The view `access_storage_inner` assembles for batch 12 against `wC`. -/
def viewjC : OverlayView :=
  { pinned_at := 10
  , storage_diffs := [sdP.storage_diffs, sdQ.storage_diffs]
  , factory_deps := [[], []] }

/-- A concrete world whose watermark has advanced to 12 with an empty window
and the cache synchronized to the watermark. -/
def wA : World := { state := { l1_batch_number := 12, storage := [] }, cacheVersion := 12 }

/-! Supporting lemmas about the association-list model of the window map. -/

theorem keysOf_pruneLe (L : Nat) (l : List (Nat × StorageData)) :
    keysOf (pruneLe L l) = (keysOf l).filter (fun x => decide (L < x)) := by
  show keysOf (pruneLe L l) = (List.map Prod.fst l).filter (fun x => decide (L < x))
  rw [List.filter_map]
  rfl

theorem range'_filter_lt (L : Nat) :
    ∀ (k s : Nat), s ≤ L + 1 →
      (List.range' s k).filter (fun x => decide (L < x)) = List.range' (L + 1) (s + k - (L + 1))
  | 0, s, hs => by
    have h0 : s + 0 - (L + 1) = 0 := by omega
    rw [h0]
    rfl
  | k + 1, s, hs => by
    rw [List.range'_succ]
    by_cases h : s ≤ L
    · have hd : decide (L < s) = false := by
        rw [decide_eq_false_iff_not]
        omega
      rw [List.filter_cons, hd]
      simp only [Bool.false_eq_true, if_false]
      rw [range'_filter_lt L k (s + 1) (by omega)]
      congr 1
      omega
    · have hsL : s = L + 1 := by omega
      subst hsL
      have hall : ∀ x ∈ (L + 1) :: List.range' (L + 1 + 1) k, decide (L < x) = true := by
        intro x hx
        rw [decide_eq_true_iff]
        rcases List.mem_cons.mp hx with h1 | h2
        · omega
        · rw [List.mem_range'_1] at h2
          omega
      rw [List.filter_eq_self.mpr hall, ← List.range'_succ]
      congr 1
      omega

theorem keysOf_btreeInsert_top (v : StorageData) :
    ∀ (l : List (Nat × StorageData)) (s j : Nat), keysOf l = List.range' s j →
      keysOf (btreeInsert (s + j) v l) = List.range' s (j + 1)
  | [], s, j, h => by
    have hj : j = 0 := by
      have h' : List.range' s j = [] := h.symm
      rw [List.range'_eq_nil] at h'
      exact h'
    subst hj
    rfl
  | (k0, v0) :: rest, s, j, h => by
    have h' : List.range' s j = k0 :: keysOf rest := h.symm
    rw [List.range'_eq_cons_iff] at h'
    obtain ⟨rfl, hj, hrest⟩ := h'
    have hrest' : keysOf rest = List.range' (s + 1) (j - 1) := hrest
    have h1 : ¬ s + j < s := by omega
    have h2 : ¬ s + j = s := by omega
    rw [btreeInsert, if_neg h1, if_neg h2]
    have hins : keysOf (btreeInsert (s + j) v rest) = List.range' (s + 1) (j - 1 + 1) := by
      have harg : s + j = (s + 1) + (j - 1) := by omega
      rw [harg]
      exact keysOf_btreeInsert_top v rest (s + 1) (j - 1) hrest'
    have hcons : keysOf ((s, v0) :: btreeInsert (s + j) v rest) =
        s :: keysOf (btreeInsert (s + j) v rest) := rfl
    rw [hcons, hins]
    have hj1 : j - 1 + 1 = j := by omega
    rw [hj1, List.range'_succ]

theorem fillWindow_keys (asm : Nat → Option StorageData) (hwn : WellNumbered asm) :
    ∀ (fuel j : Nat) (l : List (Nat × StorageData)) (s : Nat),
      keysOf l = List.range' s j →
      ∃ j', j ≤ j' ∧ j' ≤ j + fuel ∧
        keysOf (fillWindow asm fuel (s + j) l) = List.range' s j'
  | 0, j, l, s, h => ⟨j, le_refl j, by omega, h⟩
  | fuel + 1, j, l, s, h => by
    rw [fillWindow]
    cases hasm : asm (s + j) with
    | none => exact ⟨j, le_refl j, by omega, h⟩
    | some sd =>
      dsimp only
      have hnum : sd.batch_data.l1_batch_env.number = s + j := hwn (s + j) sd hasm
      rw [hnum]
      have hins := keysOf_btreeInsert_top sd l s j h
      have harg : s + j + 1 = s + (j + 1) := by omega
      rw [harg]
      obtain ⟨j', hj1, hj2, hkeys⟩ :=
        fillWindow_keys asm hwn fuel (j + 1) (btreeInsert (s + j) sd l) s hins
      exact ⟨j', by omega, by omega, hkeys⟩

theorem syncStep_keys (asm : Nat → Option StorageData) (hwn : WellNumbered asm)
    (maxW latest : Nat) (st : State) (k : Nat)
    (hmon : st.l1_batch_number ≤ latest)
    (hk : k ≤ maxW)
    (hkeys : keysOf st.storage = List.range' (st.l1_batch_number + 1) k) :
    ∃ k', k' ≤ maxW ∧
      keysOf (syncStep asm maxW latest st).storage = List.range' (latest + 1) k' := by
  have hpruned : keysOf (pruneLe latest st.storage) =
      List.range' (latest + 1) (st.l1_batch_number + 1 + k - (latest + 1)) := by
    rw [keysOf_pruneLe, hkeys]
    exact range'_filter_lt latest k (st.l1_batch_number + 1) (by omega)
  have hjk : st.l1_batch_number + 1 + k - (latest + 1) ≤ k := by omega
  have hlast : ((keysOf (pruneLe latest st.storage)).getLast?).getD latest =
      latest + (st.l1_batch_number + 1 + k - (latest + 1)) := by
    rw [hpruned, List.getLast?_range']
    by_cases hj0 : st.l1_batch_number + 1 + k - (latest + 1) = 0
    · rw [if_pos hj0, hj0]
      rfl
    · rw [if_neg hj0]
      show latest + 1 + (st.l1_batch_number + 1 + k - (latest + 1)) - 1 = _
      omega
  obtain ⟨j', hj'1, hj'2, hkeys'⟩ :=
    fillWindow_keys asm hwn (maxW - (st.l1_batch_number + 1 + k - (latest + 1)))
      (st.l1_batch_number + 1 + k - (latest + 1)) (pruneLe latest st.storage) (latest + 1) hpruned
  refine ⟨j', by omega, ?_⟩
  show keysOf (fillWindow asm
      (latest + maxW - ((keysOf (pruneLe latest st.storage)).getLast?).getD latest)
      (((keysOf (pruneLe latest st.storage)).getLast?).getD latest + 1)
      (pruneLe latest st.storage)) =
    List.range' (latest + 1) j'
  rw [hlast]
  have hfuel : latest + maxW - (latest + (st.l1_batch_number + 1 + k - (latest + 1))) =
      maxW - (st.l1_batch_number + 1 + k - (latest + 1)) := by omega
  have hstart : latest + (st.l1_batch_number + 1 + k - (latest + 1)) + 1 =
      (latest + 1) + (st.l1_batch_number + 1 + k - (latest + 1)) := by omega
  rw [hfuel, hstart]
  exact hkeys'

theorem mem_btreeInsert (k : Nat) (v : StorageData) :
    ∀ (l : List (Nat × StorageData)) (p : Nat × StorageData),
      p ∈ btreeInsert k v l → p = (k, v) ∨ p ∈ l
  | [], p, hp => by
    rw [btreeInsert] at hp
    rcases List.mem_singleton.mp hp with h
    exact Or.inl h
  | (k0, v0) :: rest, p, hp => by
    rw [btreeInsert] at hp
    by_cases h1 : k < k0
    · rw [if_pos h1] at hp
      rcases List.mem_cons.mp hp with h | h
      · exact Or.inl h
      · exact Or.inr h
    · rw [if_neg h1] at hp
      by_cases h2 : k = k0
      · rw [if_pos h2] at hp
        rcases List.mem_cons.mp hp with h | h
        · exact Or.inl h
        · exact Or.inr (List.mem_cons_of_mem _ h)
      · rw [if_neg h2] at hp
        rcases List.mem_cons.mp hp with h | h
        · exact Or.inr (h ▸ List.mem_cons_self _ _)
        · rcases mem_btreeInsert k v rest p h with h' | h'
          · exact Or.inl h'
          · exact Or.inr (List.mem_cons_of_mem _ h')

/-- Entries put into the window by the fill loop always carry their own batch
number as their key, whatever the assembler returns. -/
theorem fillWindow_selfkeyed (asm : Nat → Option StorageData) :
    ∀ (fuel n : Nat) (l : List (Nat × StorageData)),
      (∀ p ∈ l, p.2.batch_data.l1_batch_env.number = p.1) →
      ∀ p ∈ fillWindow asm fuel n l, p.2.batch_data.l1_batch_env.number = p.1
  | 0, _, _, h => h
  | fuel + 1, n, l, h => by
    rw [fillWindow]
    cases hasm : asm n with
    | none => exact h
    | some sd =>
      dsimp only
      refine fillWindow_selfkeyed asm fuel (n + 1)
        (btreeInsert sd.batch_data.l1_batch_env.number sd l) ?_
      intro p hp
      rcases mem_btreeInsert _ _ l p hp with h' | h'
      · rw [h']
      · exact h p h'

theorem syncStep_selfkeyed (asm : Nat → Option StorageData) (maxW latest : Nat) (st : State)
    (h : ∀ p ∈ st.storage, p.2.batch_data.l1_batch_env.number = p.1) :
    ∀ p ∈ (syncStep asm maxW latest st).storage, p.2.batch_data.l1_batch_env.number = p.1 := by
  refine fillWindow_selfkeyed asm _ _ _ ?_
  intro p hp
  exact h p (List.mem_of_mem_filter hp)

theorem fillWindow_faithful (db : Db) (hwn : WellNumberedDb db) :
    ∀ (fuel n : Nat) (l : List (Nat × StorageData)),
      (∀ p ∈ l, load_batch_data db p.1 = some p.2.batch_data) →
      ∀ p ∈ fillWindow (fullAssemble db) fuel n l, load_batch_data db p.1 = some p.2.batch_data
  | 0, _, _, h => h
  | fuel + 1, n, l, h => by
    rw [fillWindow]
    cases hasm : fullAssemble db n with
    | none => exact h
    | some sd =>
      dsimp only
      refine fillWindow_faithful db hwn fuel (n + 1) _ ?_
      intro p hp
      rcases mem_btreeInsert _ _ l p hp with h' | h'
      · have hbd : load_batch_data db n = some sd.batch_data := by
          rw [fullAssemble] at hasm
          cases hld : load_batch_data db n with
          | none => rw [hld] at hasm; exact absurd hasm (by simp)
          | some bd =>
            rw [hld] at hasm
            dsimp only at hasm
            cases hasm
            rfl
        have hnum : sd.batch_data.l1_batch_env.number = n :=
          hwn n sd.batch_data hbd
        rw [h']
        dsimp only
        rw [hnum]
        exact hbd
      · exact h p h'

theorem syncStep_faithful (db : Db) (hwn : WellNumberedDb db) (maxW latest : Nat) (st : State)
    (h : WindowFaithful db st) : WindowFaithful db (syncStep (fullAssemble db) maxW latest st) := by
  refine fillWindow_faithful db hwn _ _ _ ?_
  intro p hp
  exact h p (List.mem_of_mem_filter hp)

theorem reachableDb_faithful (db : Db) (hwn : WellNumberedDb db) (maxW : Nat) (st : State)
    (h : ReachableDb db maxW st) : WindowFaithful db st := by
  induction h with
  | init => intro p hp; exact absurd hp (List.not_mem_nil p)
  | step latest st _ ih => exact syncStep_faithful db hwn maxW latest st ih

/-! Supporting lemmas about overlay resolution. -/

theorem overlayResolve_none (K : Nat) :
    ∀ (ds : List (List (Nat × StateValue))), (∀ d ∈ ds, List.lookup K d = none) →
      overlayResolve ds K = none
  | [], _ => rfl
  | d :: rest, h => by
    rw [overlayResolve]
    rw [overlayResolve_none K rest fun d hd => h d (List.mem_cons_of_mem _ hd)]
    exact h d (List.mem_cons_self _ _)

theorem overlayResolve_append (K : Nat) :
    ∀ (l1 l2 : List (List (Nat × StateValue))),
      overlayResolve (l1 ++ l2) K =
        match overlayResolve l2 K with
        | some v => some v
        | none => overlayResolve l1 K
  | [], l2 => by
    cases h : overlayResolve l2 K with
    | none => rw [List.nil_append, h]; rfl
    | some v => rw [List.nil_append, h]
  | d :: rest, l2 => by
    rw [List.cons_append, overlayResolve, overlayResolve_append K rest l2]
    cases h : overlayResolve l2 K with
    | none =>
      dsimp only
      rw [overlayResolve]
    | some v => rfl

/-- In a key-sorted window, resolving `K` against the overlays of all entries
with batch number at most `j` yields the value written by the greatest writer
of `K` at or below `j`. -/
theorem overlayResolve_lastWriter (l : List (Nat × StorageData)) (j K m : Nat)
    (sd : StorageData) (v : StateValue)
    (hs : List.Pairwise (fun a b => a < b) (keysOf l))
    (hm : List.lookup m l = some sd) (hmj : m ≤ j)
    (hv : List.lookup K sd.storage_diffs = some v)
    (hoth : ∀ p ∈ l, p.1 ≤ j → m < p.1 → List.lookup K p.2.storage_diffs = none) :
    overlayResolve ((l.filter (fun p => p.1 ≤ j)).map (fun p => p.2.storage_diffs)) K = some v := by
  obtain ⟨l1, l2, hl, -⟩ := List.lookup_eq_some_iff.mp hm
  subst hl
  have htail : ∀ p ∈ l2, m < p.1 := by
    have hs' : List.Pairwise (fun a b => a < b) (List.map (fun p => p.1) l1 ++
        m :: List.map (fun p => p.1) l2) := by
      have : keysOf (l1 ++ (m, sd) :: l2) =
          List.map (fun p => p.1) l1 ++ m :: List.map (fun p => p.1) l2 := by
        rw [keysOf, List.map_append, List.map_cons]
      rw [this] at hs
      exact hs
    have hmid := (List.pairwise_append.mp hs').2.1
    intro p hp
    exact (List.pairwise_cons.mp hmid).1 p.1 (List.mem_map_of_mem (fun p => p.1) hp)
  have hfilter : (l1 ++ (m, sd) :: l2).filter (fun p => p.1 ≤ j) =
      l1.filter (fun p => p.1 ≤ j) ++ (m, sd) :: l2.filter (fun p => p.1 ≤ j) := by
    rw [List.filter_append, List.filter_cons]
    have : (decide ((m, sd).1 ≤ j)) = true := by
      rw [decide_eq_true_iff]
      exact hmj
    rw [this]
    rfl
  rw [hfilter, List.map_append, List.map_cons, overlayResolve_append]
  have hrest : overlayResolve ((l2.filter (fun p => p.1 ≤ j)).map
      (fun p => p.2.storage_diffs)) K = none := by
    refine overlayResolve_none K _ ?_
    intro d hd
    obtain ⟨p, hp, rfl⟩ := List.mem_map.mp hd
    have hp2 := List.mem_filter.mp hp
    refine hoth p (by
      refine List.mem_append.mpr (Or.inr ?_)
      exact List.mem_cons_of_mem _ hp2.1) ?_ (htail p hp2.1)
    exact of_decide_eq_true hp2.2
  rw [overlayResolve, hrest, hv]

/-! Inversion lemmas for the facade poll functions. -/

theorem accessStorage_ok_inv (maxW sealed : Nat) (syncOk : Bool) (n : Nat) (w : World)
    (view : OverlayView) (h : (accessStorageInner maxW sealed syncOk n w).1 = .ok view) :
    view.storage_diffs =
      (w.state.storage.filter (fun p => p.1 ≤ n)).map (fun p => p.2.storage_diffs) := by
  rw [accessStorageInner] at h
  split at h
  · exact absurd h (by simp)
  · split at h
    · exact absurd h (by simp)
    · split at h
      · cases h
        rfl
      · exact absurd h (by simp)

theorem loadBatchPoll_ret_some_inv (maxW sealed : Nat) (st : State) (n : Nat) (bd : BatchData)
    (h : loadBatchPoll maxW sealed st n = .ret (some bd)) :
    ∃ sd, List.lookup n st.storage = some sd ∧ bd = sd.batch_data := by
  rw [loadBatchPoll] at h
  split at h
  · cases h
  · split at h
    · cases h
      exact ⟨_, by assumption, rfl⟩
    · cases h

theorem loadBatchPoll_out_of_range (maxW sealed : Nat) (st : State) (n : Nat)
    (h : n ≤ st.l1_batch_number ∨ min (st.l1_batch_number + maxW) sealed < n) :
    loadBatchPoll maxW sealed st n = .ret none := by
  rw [loadBatchPoll]
  split
  · rfl
  · next hneg => exact absurd h hneg

theorem asmA_wellNumbered : WellNumbered asmA := by
  intro n sd h
  rw [asmA] at h
  by_cases hn : n ≤ 13
  · rw [if_pos hn] at h
    cases h
    rfl
  · rw [if_neg hn] at h
    cases h

theorem dbA_wellNumbered : WellNumberedDb dbA := by
  intro n bd h
  by_cases hn : n ≤ 13
  · have hfm : dbA.first_miniblock_in_batch n = some n := by
      show (if n ≤ 13 then some n else none) = some n
      rw [if_pos hn]
    rw [load_batch_data, hfm] at h
    cases h
    rfl
  · have hfm : dbA.first_miniblock_in_batch n = none := by
      show (if n ≤ 13 then some n else none) = none
      rw [if_neg hn]
    rw [load_batch_data, hfm] at h
    cases h

/-! The verified claims. -/

/-- C1: in every state of the shared `VersionedWindowState` reachable by
synchronizer iterations from the initial state (watermark 0, empty window),
under the documented environment contract (well-numbered assembler, monotone
progress source), the window keys are exactly the contiguous run
`durable_watermark + 1, ..., durable_watermark + k` for some `k ≤ max_window`:
entries at or below the watermark are pruned, the fill appends in strictly
increasing order from the highest present key plus one, stops at the first
absent batch, and no key ever exceeds `durable_watermark + max_window`. -/
theorem c1_window_contiguity (maxW : Nat) (st : State) (h : Reachable maxW st) :
    ∃ k, k ≤ maxW ∧ keysOf st.storage = List.range' (st.l1_batch_number + 1) k := by
  induction h with
  | init => exact ⟨0, Nat.zero_le maxW, rfl⟩
  | step asm latest st' _ hwn hmon ih =>
    obtain ⟨k, hk, hkeys⟩ := ih
    obtain ⟨k', hk', hkeys'⟩ := syncStep_keys asm hwn maxW latest st' k hmon hk hkeys
    exact ⟨k', hk', hkeys'⟩

theorem c1_window_contiguity_witness :
    ∃ k, k ≤ 5 ∧ keysOf (syncStep asmA 5 10 State.initial).storage =
      List.range' ((syncStep asmA 5 10 State.initial).l1_batch_number + 1) k :=
  c1_window_contiguity 5 (syncStep asmA 5 10 State.initial)
    (Reachable.step asmA 10 State.initial Reachable.init asmA_wellNumbered (by decide))

/-- C2: every completed synchronizer iteration sets the durable watermark to
the fresh progress-source value, an interrupted iteration leaves the state
unchanged, and under the hypothesis that the progress-source values are
monotonically non-decreasing across iterations the watermark never decreases
over any run of the loop. -/
theorem c2_watermark_monotone :
    (∀ (asm : Nat → Option StorageData) (maxW latest : Nat) (st : State),
      (syncStep asm maxW latest st).l1_batch_number = latest)
    ∧ (∀ (maxW : Nat) (inp : IterInput) (inputs : List IterInput) (st : State),
        inp.catchupOk = false → runSync maxW (inp :: inputs) st = st)
    ∧ (∀ (maxW : Nat) (inputs : List IterInput) (st : State),
        MonotoneFrom st.l1_batch_number inputs →
        st.l1_batch_number ≤ (runSync maxW inputs st).l1_batch_number) := by
  refine ⟨fun asm maxW latest st => rfl, ?_, ?_⟩
  · intro maxW inp inputs st hc
    rw [runSync, hc]
    simp
  · intro maxW inputs
    induction inputs with
    | nil => intro st _; exact le_refl _
    | cons inp rest ih =>
      intro st hm
      obtain ⟨h1, h2⟩ := hm
      rw [runSync]
      by_cases hc : inp.catchupOk
      · rw [if_pos hc]
        have hwm : (syncStep inp.asm maxW inp.latest st).l1_batch_number = inp.latest := rfl
        have htail := ih (syncStep inp.asm maxW inp.latest st) (by rw [hwm]; exact h2)
        rw [hwm] at htail
        omega
      · rw [if_neg hc]

theorem c2_watermark_monotone_witness :
    State.initial.l1_batch_number ≤ (runSync 5 inputsA State.initial).l1_batch_number :=
  c2_watermark_monotone.2.2 5 inputsA State.initial
    ⟨by decide, by decide, trivial⟩

/-- C3: after bootstrap, a `load_batch(n)` poll with `n` at or below the
watermark or above `min(watermark + max_window, latest_sealed)` answers
`none` immediately; in particular a call at `watermark + max_window + 1`
answers `none` after one poll however many poll iterations are allowed, as
long as the watermark does not advance; inside the range the call returns
only when the entry is present in the window and then yields a copy of the
stored batch data, and retries while the entry is absent. -/
theorem c3_load_batch_bounds (maxW : Nat) :
    (∀ (sealed : Nat) (st : State) (n : Nat),
        n ≤ st.l1_batch_number ∨ min (st.l1_batch_number + maxW) sealed < n →
        loadBatchPoll maxW sealed st n = .ret none)
    ∧ (∀ (env : Nat → State × Nat) (w fuel i : Nat), 0 < fuel →
        (∀ k, (env k).1.l1_batch_number = w) →
        loadBatchLoop maxW env (w + maxW + 1) fuel i = some none)
    ∧ (∀ (sealed : Nat) (st : State) (n : Nat) (bd : BatchData),
        loadBatchPoll maxW sealed st n = .ret (some bd) →
        ∃ sd, List.lookup n st.storage = some sd ∧ bd = sd.batch_data)
    ∧ (∀ (sealed : Nat) (st : State) (n : Nat),
        st.l1_batch_number < n → n ≤ min (st.l1_batch_number + maxW) sealed →
        List.lookup n st.storage = none →
        loadBatchPoll maxW sealed st n = .retry) := by
  refine ⟨loadBatchPoll_out_of_range maxW, ?_, ?_, ?_⟩
  · intro env w fuel i hf hw
    cases fuel with
    | zero => omega
    | succ f =>
      rw [loadBatchLoop]
      have hpoll : loadBatchPoll maxW (env i).2 (env i).1 (w + maxW + 1) = .ret none := by
        refine loadBatchPoll_out_of_range maxW (env i).2 (env i).1 (w + maxW + 1) (Or.inr ?_)
        rw [hw i]
        have := Nat.min_le_left (w + maxW) (env i).2
        omega
      rw [hpoll]
  · exact fun sealed st n bd => loadBatchPoll_ret_some_inv maxW sealed st n bd
  · intro sealed st n h1 h2 habs
    rw [loadBatchPoll]
    have hneg : ¬ (n ≤ st.l1_batch_number ∨ min (st.l1_batch_number + maxW) sealed < n) := by
      omega
    rw [if_neg hneg, habs]

theorem c3_load_batch_bounds_witness :
    loadBatchPoll 5 13 stA 14 = .ret none
    ∧ loadBatchLoop 5 (fun _ => (stA, 13)) 16 3 0 = some none
    ∧ (∃ sd, List.lookup 12 stA.storage = some sd ∧ (mkSD 12).batch_data = sd.batch_data)
    ∧ loadBatchPoll 5 20 stA 14 = .retry := by
  refine ⟨(c3_load_batch_bounds 5).1 13 stA 14 (by decide),
    (c3_load_batch_bounds 5).2.1 (fun _ => (stA, 13)) 10 3 0 (by decide) (fun k => rfl),
    (c3_load_batch_bounds 5).2.2.1 13 stA 12 (mkSD 12).batch_data (by decide),
    (c3_load_batch_bounds 5).2.2.2 20 stA 14 (by decide) (by decide) (by decide)⟩

/-- C4: after bootstrap, a `view_as_of(n)` (`access_storage_inner`) poll with
`n` strictly below the watermark or above
`min(watermark + max_window, latest_sealed)` fails with the returned
out-of-range error — not `none`, not a retry, not stale window data; in
particular once the watermark has advanced past a pruned batch, any request
strictly below the watermark deterministically produces this failure. -/
theorem c4_view_out_of_range_fails (maxW sealed : Nat) (syncOk : Bool) (n : Nat) (w : World)
    (h : n < w.state.l1_batch_number ∨ min (w.state.l1_batch_number + maxW) sealed < n) :
    (accessStorageInner maxW sealed syncOk n w).1 = .fail := by
  rw [accessStorageInner]
  split
  · rfl
  · next hneg => exact absurd h hneg

theorem c4_view_out_of_range_fails_witness :
    (accessStorageInner 5 20 true 9 wA).1 = .fail :=
  c4_view_out_of_range_fails 5 20 true 9 wA (by decide)

/-- C5: when `view_as_of(n)` succeeds after bootstrap, the overlay consists of
exactly the diff sets of the window entries with batch number at most `n` in
increasing batch order, so that for a key written with value `vA` in window
batch `m` and value `vB` in a later window batch `m2 ≤ n` (and in no other
selected batch), resolution as of `n` yields `vB` while resolution as of any
`j` with `m ≤ j < m2` yields `vA`. -/
theorem c5_overlay_correctness (maxW sealed : Nat) (w : World) (n j m m2 K : Nat)
    (sdm sdm2 : StorageData) (vA vB : StateValue) (view viewj : OverlayView)
    (hs : List.Pairwise (fun a b => a < b) (keysOf w.state.storage))
    (hm : List.lookup m w.state.storage = some sdm)
    (hm2 : List.lookup m2 w.state.storage = some sdm2)
    (hA : List.lookup K sdm.storage_diffs = some vA)
    (hB : List.lookup K sdm2.storage_diffs = some vB)
    (hlt : m < m2) (hm2n : m2 ≤ n)
    (hoth : ∀ p ∈ w.state.storage, p.1 ≤ n → p.1 ≠ m → p.1 ≠ m2 →
      List.lookup K p.2.storage_diffs = none)
    (hpn : (accessStorageInner maxW sealed true n w).1 = .ok view)
    (hj1 : m ≤ j) (hj2 : j < m2)
    (hpj : (accessStorageInner maxW sealed true j w).1 = .ok viewj) :
    view.storage_diffs =
      (w.state.storage.filter (fun p => p.1 ≤ n)).map (fun p => p.2.storage_diffs)
    ∧ overlayResolve view.storage_diffs K = some vB
    ∧ overlayResolve viewj.storage_diffs K = some vA := by
  have hview := accessStorage_ok_inv maxW sealed true n w view hpn
  have hviewj := accessStorage_ok_inv maxW sealed true j w viewj hpj
  refine ⟨hview, ?_, ?_⟩
  · rw [hview]
    refine overlayResolve_lastWriter w.state.storage n K m2 sdm2 vB hs hm2 hm2n hB ?_
    intro p hp hpn' hgt
    exact hoth p hp hpn' (by omega) (by omega)
  · rw [hviewj]
    refine overlayResolve_lastWriter w.state.storage j K m sdm vA hs hm hj1 hA ?_
    intro p hp hpj' hgt
    exact hoth p hp (by omega) (by omega) (by omega)

theorem c5_overlay_correctness_witness :
    viewC.storage_diffs =
      (wC.state.storage.filter (fun p => p.1 ≤ 13)).map (fun p => p.2.storage_diffs)
    ∧ overlayResolve viewC.storage_diffs 7 = some { value := 200, enum_index := some 1 }
    ∧ overlayResolve viewjC.storage_diffs 7 = some { value := 100, enum_index := some 1 } :=
  c5_overlay_correctness 5 13 wC 13 12 11 13 7 sdP sdR
    { value := 100, enum_index := some 1 } { value := 200, enum_index := some 1 }
    viewC viewjC (by decide) (by decide) (by decide) (by decide) (by decide)
    (by decide) (by decide) (by decide) (by decide) (by decide) (by decide) (by decide)

/-- C6: the batch assembler `load_batch_data` returns `none` exactly when the
lookup of the first block of the batch returns nothing (batch not yet
sealed); when a first block exists it returns the environment loaded through
that block together with the batch's blocks-with-transactions. The embedding
is a pure function of the store, reflecting that the code only issues
read-only queries. -/
theorem c6_load_batch_data_spec (db : Db) (n : Nat) :
    (load_batch_data db n = none ↔ db.first_miniblock_in_batch n = none)
    ∧ (∀ blk, db.first_miniblock_in_batch n = some blk →
        load_batch_data db n = some
          { l1_batch_env := (db.load_l1_batch_params blk u32Max).2
          , system_env := (db.load_l1_batch_params blk u32Max).1
          , miniblocks := db.get_miniblocks_to_execute n }) := by
  constructor
  · cases h : db.first_miniblock_in_batch n with
    | none => simp [load_batch_data, h]
    | some blk => simp [load_batch_data, h]
  · intro blk h
    rw [load_batch_data, h]

theorem c6_load_batch_data_spec_witness :
    (load_batch_data dbA 20 = none ↔ dbA.first_miniblock_in_batch 20 = none)
    ∧ load_batch_data dbA 12 = some
        { l1_batch_env := (dbA.load_l1_batch_params 12 u32Max).2
        , system_env := (dbA.load_l1_batch_params 12 u32Max).1
        , miniblocks := dbA.get_miniblocks_to_execute 12 } :=
  ⟨(c6_load_batch_data_spec dbA 20).1, (c6_load_batch_data_spec dbA 12).2 12 (by decide)⟩

/-- C7: against one fixed well-numbered durable store, whenever the
post-bootstrap cached path of `load_batch` returns a batch data for `n` from
a reachable window, it equals what the pre-bootstrap direct path computes for
the same `n` by calling `load_batch_data` directly. -/
theorem c7_bootstrap_equivalence (db : Db) (maxW sealed : Nat) (st : State) (n : Nat)
    (bd : BatchData) (hwn : WellNumberedDb db) (hr : ReachableDb db maxW st)
    (hp : loadBatchPoll maxW sealed st n = .ret (some bd)) :
    loadBatchDirect db n = some bd := by
  obtain ⟨sd, hl, rfl⟩ := loadBatchPoll_ret_some_inv maxW sealed st n bd hp
  have hmem : (n, sd) ∈ st.storage := by
    obtain ⟨l1, l2, hl', -⟩ := List.lookup_eq_some_iff.mp hl
    rw [hl']
    exact List.mem_append.mpr (Or.inr (List.mem_cons_self _ _))
  exact reachableDb_faithful db hwn maxW st hr (n, sd) hmem

theorem c7_bootstrap_equivalence_witness : loadBatchDirect dbA 12 = some bdD :=
  c7_bootstrap_equivalence dbA 5 13 stD 12 bdD dbA_wellNumbered
    (ReachableDb.step 10 State.initial ReachableDb.init) (by decide)

/-- C8: neither facade operation mutates shared state: provided the cache is
synchronized at least up to the watermark (the invariant the synchronizer
maintains before publishing a watermark), an `access_storage_inner` poll and
a `load_batch` poll both leave the world — the `VersionedWindowState` and the
local key-value cache version — exactly unchanged, for every input. -/
theorem c8_facade_no_mutation (maxW sealed : Nat) (syncOk : Bool) (n : Nat) (w : World)
    (h : w.state.l1_batch_number ≤ w.cacheVersion) :
    (accessStorageInner maxW sealed syncOk n w).2 = w
    ∧ (loadBatchInner maxW sealed n w).2 = w := by
  have hcs : cacheSynchronize w.state.l1_batch_number w = w := by
    rw [cacheSynchronize, Nat.max_eq_left h]
  refine ⟨?_, rfl⟩
  rw [accessStorageInner]
  split
  · rfl
  · split
    · rfl
    · split
      · exact hcs
      · exact hcs

theorem c8_facade_no_mutation_witness :
    (accessStorageInner 5 20 true 13 wC).2 = wC ∧ (loadBatchInner 5 20 13 wC).2 = wC :=
  c8_facade_no_mutation 5 20 true 13 wC (by decide)

/-- C9: when the cache catch-up inside a synchronizer iteration reports
cancellation, the task terminates cleanly (the `Ok(())` outcome, not an
error) and the iteration commits nothing: the watermark is not bumped, no
entry is pruned, no entry is inserted — the shared state is returned exactly
as the iteration found it. -/
theorem c9_interrupted_iteration (asm : Nat → Option StorageData) (maxW latest : Nat)
    (st : State) : syncIteration asm maxW latest false false st = (.ok, st) := rfl

/-- C10: in every reachable state — even without any assumption on the
assembler or the progress source — each window entry is stored under the
batch number recorded in its own environment, because the fill loop inserts
under `batch_data.l1_batch_env.number`; contiguity of those keys with the
iterated counter additionally requires the assembler to be well-numbered, as
in C1. -/
theorem c10_window_selfkeyed (maxW : Nat) (st : State) (h : ReachableAny maxW st) :
    ∀ p ∈ st.storage, p.2.batch_data.l1_batch_env.number = p.1 := by
  induction h with
  | init => intro p hp; exact absurd hp (List.not_mem_nil p)
  | step asm latest st' _ ih => exact syncStep_selfkeyed asm maxW latest st' ih

theorem c10_window_selfkeyed_witness :
    (mkSD 11).batch_data.l1_batch_env.number = 11 :=
  c10_window_selfkeyed 5 (syncStep asmA 5 10 State.initial)
    (ReachableAny.step asmA 10 State.initial ReachableAny.init) (11, mkSD 11) (by decide)

end VmRunner
